import Mathlib

/-!
Verification of the MemVec vector-storage system against its specification.

The definitions below are a shallow embedding of the Python sources:
`src/config/contants.py`, `src/vectors/pointer.py`, `src/vectors/vectors.py`,
`src/index/index.py`, `src/processes/process_file.py`, `src/s3/chunker.py`,
`src/s3/chunk_upload.py`, `src/workflow.py` and `src/query.py`.
Python integers are modelled as `Nat` (all values handled by the code are
non-negative), embeddings' float values are opaque to the control flow and are
modelled by a type parameter or by `Int` where an order is needed.
-/

namespace MemVec

open List

/-! ### Constants, from src/config/contants.py -/

def OFFSET_BITS : Nat := 16
def CHUNK_BITS : Nat := 20
def DOCUMENT_BITS : Nat := 27
def MAX_VECTORS_PER_CHUNK : Nat := 100

/-! ### Pointer, from src/vectors/pointer.py -/

namespace Pointer

def MAX_OFFSET : Nat := (1 <<< OFFSET_BITS) - 1
def MAX_CHUNK : Nat := (1 <<< CHUNK_BITS) - 1
def MAX_DOCUMENT : Nat := (1 <<< DOCUMENT_BITS) - 1

def OFFSET_MASK : Nat := MAX_OFFSET
def CHUNK_MASK : Nat := MAX_CHUNK <<< OFFSET_BITS
def DOCUMENT_MASK : Nat := MAX_DOCUMENT <<< (OFFSET_BITS + CHUNK_BITS)

def CHUNK_SHIFT : Nat := OFFSET_BITS
def DOCUMENT_SHIFT : Nat := OFFSET_BITS + CHUNK_BITS

/-- Embedding of `Pointer.encode`: `(document << DOCUMENT_SHIFT) | (chunk << CHUNK_SHIFT) | offset`.
The Python code performs no range validation. -/
def encode (document chunk offset : Nat) : Nat :=
  (document <<< DOCUMENT_SHIFT) ||| (chunk <<< CHUNK_SHIFT) ||| offset

/-- Embedding of `Pointer.decode`: masks and shifts the index back into the
triple `(document, chunk, offset)`. The Python code performs no validation. -/
def decode (index : Nat) : Nat × Nat × Nat :=
  (index >>> DOCUMENT_SHIFT &&& MAX_DOCUMENT,
   index >>> CHUNK_SHIFT &&& MAX_CHUNK,
   index &&& OFFSET_MASK)

/-- Embedding of `Pointer.generate_chunk_id`: `(document << CHUNK_BITS) | chunk`. -/
def generate_chunk_id (document chunk : Nat) : Nat :=
  (document <<< CHUNK_BITS) ||| chunk

/-- Embedding of `Pointer.decode_chunk_id`. -/
def decode_chunk_id (chunk_id : Nat) : Nat × Nat :=
  (chunk_id >>> CHUNK_BITS &&& MAX_DOCUMENT, chunk_id &&& MAX_CHUNK)

end Pointer

/-! ### Arithmetic characterisation of the bit manipulation -/

theorem shiftLeft_or_eq_add (x a n : Nat) (h : a < 2 ^ n) :
    (x <<< n) ||| a = x * 2 ^ n + a := by
  rw [Nat.shiftLeft_eq, Nat.mul_comm]
  exact (Nat.mul_add_lt_is_or h x).symm

theorem encode_eq_add (d c o : Nat) (hc : c < 2 ^ 20) (ho : o < 2 ^ 16) :
    Pointer.encode d c o = d * 2 ^ 36 + c * 2 ^ 16 + o := by
  unfold Pointer.encode Pointer.DOCUMENT_SHIFT Pointer.CHUNK_SHIFT OFFSET_BITS CHUNK_BITS
  have h1 : (d <<< 36) ||| (c <<< 16) = d * 2 ^ 36 + c * 2 ^ 16 := by
    have hlt : c <<< 16 < 2 ^ 36 := by
      rw [Nat.shiftLeft_eq]
      calc c * 2 ^ 16 < 2 ^ 20 * 2 ^ 16 := by
            exact Nat.mul_lt_mul_of_lt_of_le hc (le_refl _) (by norm_num)
        _ = 2 ^ 36 := by norm_num
    have := shiftLeft_or_eq_add d (c <<< 16) 36 hlt
    rw [this, Nat.shiftLeft_eq]
  rw [h1]
  have h2 : d * 2 ^ 36 + c * 2 ^ 16 = (d * 2 ^ 20 + c) * 2 ^ 16 := by ring
  rw [h2]
  have h3 : (d * 2 ^ 20 + c) * 2 ^ 16 + o = ((d * 2 ^ 20 + c) <<< 16) ||| o := by
    rw [Nat.shiftLeft_eq, Nat.mul_comm (d * 2 ^ 20 + c) (2 ^ 16)]
    exact Nat.mul_add_lt_is_or ho (d * 2 ^ 20 + c)
  calc ((d * 2 ^ 20 + c) * 2 ^ 16) ||| o
      = (((d * 2 ^ 20 + c) <<< 16)) ||| o := by rw [Nat.shiftLeft_eq]
    _ = (d * 2 ^ 20 + c) * 2 ^ 16 + o := h3.symm

theorem decode_eq_divmod (i : Nat) :
    Pointer.decode i = (i / 2 ^ 36 % 2 ^ 27, i / 2 ^ 16 % 2 ^ 20, i % 2 ^ 16) := by
  unfold Pointer.decode Pointer.DOCUMENT_SHIFT Pointer.CHUNK_SHIFT
  unfold Pointer.MAX_DOCUMENT Pointer.MAX_CHUNK Pointer.OFFSET_MASK Pointer.MAX_OFFSET
  unfold OFFSET_BITS CHUNK_BITS DOCUMENT_BITS
  have e1 : (1 : Nat) <<< 27 - 1 = 2 ^ 27 - 1 := by rw [Nat.one_shiftLeft]
  have e2 : (1 : Nat) <<< 20 - 1 = 2 ^ 20 - 1 := by rw [Nat.one_shiftLeft]
  have e3 : (1 : Nat) <<< 16 - 1 = 2 ^ 16 - 1 := by rw [Nat.one_shiftLeft]
  rw [e1, e2, e3, Nat.shiftRight_eq_div_pow, Nat.shiftRight_eq_div_pow,
    Nat.and_pow_two_sub_one_eq_mod, Nat.and_pow_two_sub_one_eq_mod,
    Nat.and_pow_two_sub_one_eq_mod]

/-- C1: for every in-range triple, decoding the encoded pointer returns the
same triple, and the encoded value lies below `2 ^ 63`. -/
theorem pointer_encode_decode_roundtrip (d c o : Nat)
    (hd : d < 2 ^ 27) (hc : c < 2 ^ 20) (ho : o < 2 ^ 16) :
    Pointer.decode (Pointer.encode d c o) = (d, c, o) ∧
      Pointer.encode d c o < 2 ^ 63 := by
  have he := encode_eq_add d c o hc ho
  constructor
  · rw [decode_eq_divmod, he]
    have h1 : (d * 2 ^ 36 + c * 2 ^ 16 + o) / 2 ^ 36 % 2 ^ 27 = d := by omega
    have h2 : (d * 2 ^ 36 + c * 2 ^ 16 + o) / 2 ^ 16 % 2 ^ 20 = c := by omega
    have h3 : (d * 2 ^ 36 + c * 2 ^ 16 + o) % 2 ^ 16 = o := by omega
    rw [h1, h2, h3]
  · rw [he]; omega

/-- Concrete instantiation of the pointer round-trip theorem. -/
theorem pointer_encode_decode_roundtrip_witness :
    (5 : Nat) < 2 ^ 27 ∧ (7 : Nat) < 2 ^ 20 ∧ (9 : Nat) < 2 ^ 16 ∧
      (Pointer.decode (Pointer.encode 5 7 9) = (5, 7, 9) ∧
        Pointer.encode 5 7 9 < 2 ^ 63) :=
  ⟨by norm_num, by norm_num, by norm_num,
    pointer_encode_decode_roundtrip 5 7 9 (by norm_num) (by norm_num) (by norm_num)⟩

/-- C2 counterexample: `Pointer.encode` does not reject the out-of-range
document `2 ^ 27`; it returns the value `2 ^ 63` (and no error is raised
anywhere in `encode` or `decode` - there is no `InvalidPointer` in the code). -/
theorem pointer_encode_no_validation_counterexample :
    Pointer.encode (2 ^ 27) 0 0 = 2 ^ 63 ∧
      Pointer.decode (2 ^ 63) = (0, 0, 0) := by
  constructor
  · have := encode_eq_add (2 ^ 27) 0 0 (by norm_num) (by norm_num)
    rw [this]; norm_num
  · rw [decode_eq_divmod]; norm_num

/-- C2 amended: neither `Pointer.encode` nor `Pointer.decode` validates its
input or raises; both are total. `decode` returns the masked fields of any
input, and `encode` of an out-of-range field still returns a value, which can
escape the 63-bit range (for example `encode (2 ^ 27) 0 0 = 2 ^ 63`). -/
theorem pointer_no_validation_total (i : Nat) :
    Pointer.decode i = (i / 2 ^ 36 % 2 ^ 27, i / 2 ^ 16 % 2 ^ 20, i % 2 ^ 16) ∧
      Pointer.encode (2 ^ 27) 0 0 = 2 ^ 63 := by
  refine ⟨decode_eq_divmod i, ?_⟩
  have := encode_eq_add (2 ^ 27) 0 0 (by norm_num) (by norm_num)
  rw [this]; norm_num

/-! ### Pointer objects and Vector, from src/vectors/pointer.py and
src/vectors/vectors.py -/

/-- State of a `Pointer` instance: the three components plus the stored
encoded index computed by `__init__` via `_encode`. -/
structure PointerObj where
  document : Nat
  chunk : Nat
  offset : Nat
  stored_index : Nat
deriving DecidableEq, Repr

/-- Embedding of `Pointer.__init__`, which stores the components and caches
`self._index = self._encode()`. -/
def PointerObj.mk_pointer (document chunk offset : Nat) : PointerObj :=
  ⟨document, chunk, offset, Pointer.encode document chunk offset⟩

/-- Embedding of the `Pointer.index` property. -/
def PointerObj.index (p : PointerObj) : Nat := p.stored_index

/-- Embedding of `Pointer.get_chunk_id`. -/
def PointerObj.get_chunk_id (p : PointerObj) : Nat :=
  Pointer.generate_chunk_id p.document p.chunk

/-- Embedding of `Pointer.from_index`. -/
def PointerObj.from_index (index : Nat) : PointerObj :=
  match Pointer.decode index with
  | (document, chunk, offset) => PointerObj.mk_pointer document chunk offset

/-- Embedding of the `Vector` class: embedding values plus the pointer.
Metadata does not affect any verified property and is omitted. -/
structure Vector (α : Type) where
  values : α
  pointer : PointerObj
deriving DecidableEq, Repr

/-- Embedding of `Vector.__init__` when called with components. -/
def Vector.mk_components (values : α) (document chunk offset : Nat) : Vector α :=
  ⟨values, PointerObj.mk_pointer document chunk offset⟩

/-- Embedding of `Vector.__init__` when called with a raw index. -/
def Vector.mk_from_index (values : α) (index : Nat) : Vector α :=
  ⟨values, PointerObj.from_index index⟩

/-- Embedding of the `Vector.index` property. -/
def Vector.index (v : Vector α) : Nat := v.pointer.index

/-- Embedding of the `Vector.document` property. -/
def Vector.document (v : Vector α) : Nat := v.pointer.document

/-- Embedding of the `Vector.chunk` property. -/
def Vector.chunk (v : Vector α) : Nat := v.pointer.chunk

/-- Embedding of the `Vector.offset` property. -/
def Vector.offset (v : Vector α) : Nat := v.pointer.offset

/-- Embedding of `Vector.get_pointer_components`. -/
def Vector.get_pointer_components (v : Vector α) : Nat × Nat × Nat :=
  (v.pointer.document, v.pointer.chunk, v.pointer.offset)

/-- Embedding of `Vector.set_pointer_components`, which replaces the pointer
with a freshly constructed one (state-passing style for the mutation). -/
def Vector.set_pointer_components (v : Vector α) (document chunk offset : Nat) :
    Vector α :=
  ⟨v.values, PointerObj.mk_pointer document chunk offset⟩

/-- Embedding of `Vector.get_chunk_id`. -/
def Vector.get_chunk_id (v : Vector α) : Nat := v.pointer.get_chunk_id

/-- C8 counterexample: the `Vector` type does offer a mutating operation.
Calling `set_pointer_components` on a vector constructed with components
`(1, 2, 3)` changes the pointer components and the encoded index. -/
theorem vector_mutation_counterexample :
    (Vector.set_pointer_components (Vector.mk_components 0 1 2 3) 4 5 6).get_pointer_components
        = (4, 5, 6) ∧
      (Vector.mk_components (0 : Nat) 1 2 3).get_pointer_components = (1, 2, 3) ∧
      ((4, 5, 6) : Nat × Nat × Nat) ≠ (1, 2, 3) ∧
      (Vector.set_pointer_components (Vector.mk_components 0 1 2 3) 4 5 6).index
        ≠ (Vector.mk_components (0 : Nat) 1 2 3).index := by
  refine ⟨rfl, rfl, by decide, ?_⟩
  show Pointer.encode 4 5 6 ≠ Pointer.encode 1 2 3
  rw [encode_eq_add 4 5 6 (by norm_num) (by norm_num),
    encode_eq_add 1 2 3 (by norm_num) (by norm_num)]
  norm_num

/-- C8 amended: the only mutator offered by `Vector` is
`set_pointer_components`, which replaces the pointer wholesale; afterwards the
components are exactly the new triple, the encoded index is the encoding of the
new triple, the chunk id follows the new components, and the embedding values
are untouched. All other operations are read-only accessors. -/
theorem vector_set_pointer_components_spec (v : Vector α) (d c o : Nat) :
    (v.set_pointer_components d c o).get_pointer_components = (d, c, o) ∧
      (v.set_pointer_components d c o).index = Pointer.encode d c o ∧
      (v.set_pointer_components d c o).get_chunk_id = Pointer.generate_chunk_id d c ∧
      (v.set_pointer_components d c o).values = v.values :=
  ⟨rfl, rfl, rfl, rfl⟩

/-! ### Chunk keys and uploads, from src/s3/chunker.py, src/s3/chunk_upload.py
and src/workflow.py -/

/-- Rendering of a chunk id into the key string, as Python string formatting
does inside the f-string (`None` renders as the literal text). -/
def chunk_id_str : Option Nat → String
  | some cid => toString cid
  | none => "None"

/-- Embedding of `create_chunk_key`: the f-string `chunks/` + chunk id + `.pkl`. -/
def create_chunk_key (chunk_id : String) : String :=
  "chunks/" ++ chunk_id ++ ".pkl"

/-- Embedding of the dictionary returned by `get_chunk_info`. -/
structure ChunkInfo where
  chunk_id : Option Nat
  number_of_vectors : Nat
  s3_key : String
deriving DecidableEq, Repr

/-- Embedding of `get_chunk_info`. -/
def get_chunk_info (vectors : List (Vector α)) (chunk_id : Option Nat) : ChunkInfo :=
  ⟨chunk_id, vectors.length, create_chunk_key (chunk_id_str chunk_id)⟩

/-- Embedding of the dictionary returned by `upload_vector_chunk`. -/
structure UploadResult where
  chunk_id : Option Nat
  number_of_vectors : Nat
  s3_key : String
  success : Bool
  error : Option String
deriving DecidableEq, Repr

/-- Embedding of `prepare_vectors_for_storage` at the argument type the
workflow actually passes it: a list of `Vector` objects. The function runs
`np.stack([vector.astype(np.float32) for vector in vectors])`; a `Vector` has
no `astype` method (the function was written for numpy arrays), so a
non-empty list raises `AttributeError` at the first element, and an empty
list makes `np.stack` raise `ValueError`. At this argument type it never
returns. -/
def prepare_vectors_for_storage (vectors : List (Vector α)) : Except String Unit :=
  match vectors with
  | [] => Except.error "ValueError: need at least one array to stack"
  | _ :: _ => Except.error "AttributeError: Vector object has no attribute astype"

/-- Embedding of `upload_vector_chunk` at the `Vector`-list argument type.
`prepare_vectors_for_storage` is called before the `try` block, so its
exception propagates to the caller; only if it returned would the key be
computed by `get_chunk_info` and the external `put_object` run (its outcome is
the parameter `put_ok`: `none` for success, `some msg` for the exception
message). -/
def upload_vector_chunk (put_ok : Option String) (vectors : List (Vector α))
    (chunk_id : Option Nat) : Except String UploadResult :=
  match prepare_vectors_for_storage vectors with
  | Except.error e => Except.error e
  | Except.ok _ =>
    let info := get_chunk_info vectors chunk_id
    match put_ok with
    | none => Except.ok ⟨chunk_id, vectors.length, info.s3_key, true, none⟩
    | some msg => Except.ok ⟨chunk_id, vectors.length, info.s3_key, false, some msg⟩

/-- Embedding of the result dictionary of `add_file_to_system`. -/
structure AddFileResult where
  document_id : Option Nat
  total_vectors : Nat
  chunks_count : Nat
  s3_uploads : List UploadResult
  success : Bool
  error : Option String
deriving Repr

/-- Chunk id taken from the first vector of a chunk, as in `add_file_to_system`
(`chunk[0].get_chunk_id() if chunk else None`). -/
def chunk_id_of_chunk (chunk : List (Vector α)) : Option Nat :=
  match chunk with
  | [] => none
  | v :: _ => some v.get_chunk_id

/-- Document id taken from the first vector, as in `add_file_to_system`
(`chunks[0][0].document if chunks and chunks[0] else None`). -/
def document_id_of_chunks (chunks : List (List (Vector α))) : Option Nat :=
  match chunks with
  | [] => none
  | c :: _ =>
    match c with
    | [] => none
    | v :: _ => some v.document

/-- The upload loop of `add_file_to_system`: chunks are uploaded in order; an
exception raised by an upload call aborts the loop and propagates to the
surrounding `except`. -/
def upload_loop (put_ok : Nat → Option String) :
    List (List (Vector α)) → Nat → List UploadResult →
      Except String (List UploadResult)
  | [], _, acc => Except.ok acc
  | chunk :: rest, i, acc =>
    match upload_vector_chunk (put_ok i) chunk (chunk_id_of_chunk chunk) with
    | Except.error e => Except.error e
    | Except.ok r => upload_loop put_ok rest (i + 1) (acc ++ [r])

/-- Embedding of `add_file_to_system` after `process_file` succeeded.
The processing and S3 are external at this boundary: `chunks` is the list of
chunks produced, and `put_ok i` is the outcome of the `put_object` call for
the i-th chunk. Any exception raised inside the `try` block (in particular
the `AttributeError` from `prepare_vectors_for_storage` on `Vector` inputs)
is caught by the outer `except`, which returns the error dictionary with
`s3_uploads = []` and `success = False`. -/
def add_file_to_system (put_ok : Nat → Option String)
    (chunks : List (List (Vector α))) : AddFileResult :=
  match upload_loop put_ok chunks 0 [] with
  | Except.error e => ⟨none, 0, 0, [], false, some e⟩
  | Except.ok s3_uploads =>
    ⟨document_id_of_chunks chunks, (chunks.map List.length).sum, chunks.length,
      s3_uploads, s3_uploads.all (fun u => u.success), none⟩

/-- C9 counterexample: the object-store key for chunk id 0 is
`chunks/0.pkl`, not `chunks/0.bin` as the specification states. -/
theorem chunk_key_extension_counterexample :
    create_chunk_key (chunk_id_str (some 0)) = "chunks/0.pkl" ∧
      create_chunk_key (chunk_id_str (some 0)) ≠ "chunks/0.bin" := by
  constructor
  · rfl
  · decide

/-- C9 amended: for every chunk id, the object-store key the upload side
computes for a chunk (`get_chunk_info`, as `upload_vector_chunk` would use)
and the key the fetch side uses (`download_vector_chunk` via
`create_chunk_key`) agree and are the string `chunks/<decimal chunk id>.pkl`. -/
theorem chunk_key_format (vectors : List (Vector Nat)) (cid : Nat) :
    (get_chunk_info vectors (some cid)).s3_key
        = "chunks/" ++ Nat.repr cid ++ ".pkl" ∧
      create_chunk_key (chunk_id_str (some cid))
        = "chunks/" ++ Nat.repr cid ++ ".pkl" :=
  ⟨rfl, rfl⟩

/-- C7 is a code bug: `add_file_to_system` feeds lists of `Vector` objects to
`upload_vector_chunk`, whose `prepare_vectors_for_storage` call runs
`vector.astype(np.float32)` on each element; `Vector` has no `astype`, so the
first upload raises `AttributeError` and the outer `except` returns
`s3_uploads = []` with `success = False` for every non-empty chunk list,
never the per-chunk outcomes the specification describes. -/
theorem add_file_upload_crash (put_ok : Nat → Option String)
    (chunks : List (List (Vector α))) (hne : chunks ≠ []) :
    (add_file_to_system put_ok chunks).s3_uploads = [] ∧
      (add_file_to_system put_ok chunks).success = false ∧
      (add_file_to_system put_ok chunks).error.isSome = true ∧
      (add_file_to_system put_ok chunks).document_id = none := by
  cases chunks with
  | nil => exact absurd rfl hne
  | cons c rest =>
    cases c with
    | nil => exact ⟨rfl, rfl, rfl, rfl⟩
    | cons v vs => exact ⟨rfl, rfl, rfl, rfl⟩

/-- Concrete instantiation of the upload-crash theorem: a single one-vector
chunk yields the error record, not a per-chunk outcome list. -/
theorem add_file_upload_crash_witness :
    ([[Vector.mk_components (0 : Nat) 1 2 3]] : List (List (Vector Nat))) ≠ [] ∧
      ((add_file_to_system (fun _ => none)
            [[Vector.mk_components (0 : Nat) 1 2 3]]).s3_uploads = [] ∧
        (add_file_to_system (fun _ => none)
            [[Vector.mk_components (0 : Nat) 1 2 3]]).success = false ∧
        (add_file_to_system (fun _ => none)
            [[Vector.mk_components (0 : Nat) 1 2 3]]).error.isSome = true ∧
        (add_file_to_system (fun _ => none)
            [[Vector.mk_components (0 : Nat) 1 2 3]]).document_id = none) :=
  ⟨by decide, add_file_upload_crash (fun _ => none)
    [[Vector.mk_components (0 : Nat) 1 2 3]] (by decide)⟩

/-! ### File processing, from src/processes/process_file.py -/

/-- Embedding of the chunking loop of `FileProcessor.process_file`. The state
is `(remaining items, current_chunk, current_offset, chunks, current_chunk_vectors)`;
when `current_offset` reaches `MAX_VECTORS_PER_CHUNK` the current chunk is
closed, the chunk number incremented and the offset reset, exactly as the
Python loop does; the trailing non-empty chunk is appended after the loop. -/
def process_loop (doc : Nat) :
    List α → Nat → Nat → List (List (Vector α)) → List (Vector α) →
      List (List (Vector α))
  | [], _, _, chunks, cur => if cur.isEmpty then chunks else chunks ++ [cur]
  | x :: xs, chunkNo, off, chunks, cur =>
    if MAX_VECTORS_PER_CHUNK ≤ off then
      process_loop doc xs (chunkNo + 1) 1 (chunks ++ [cur])
        [Vector.mk_components x doc (chunkNo + 1) 0]
    else
      process_loop doc xs chunkNo (off + 1) chunks
        (cur ++ [Vector.mk_components x doc chunkNo off])

/-- Embedding of `FileProcessor.process_file` after text extraction and
embedding generation: `items` is the list of (text, embedding) pairs and
`doc` the generated document id. -/
def process_file (doc : Nat) (items : List α) : List (List (Vector α)) :=
  process_loop doc items 0 0 [] []

theorem process_loop_length (doc : Nat) (xs : List α) :
    ∀ (c off : Nat) (chunks : List (List (Vector α))) (cur : List (Vector α)),
      off = cur.length → off ≤ MAX_VECTORS_PER_CHUNK →
      (process_loop doc xs c off chunks cur).length
        = chunks.length
            + (cur.length + xs.length + MAX_VECTORS_PER_CHUNK - 1)
                / MAX_VECTORS_PER_CHUNK := by
  induction xs with
  | nil =>
    intro c off chunks cur ho hle
    simp only [process_loop]
    by_cases hc : cur.isEmpty
    · rw [if_pos hc]
      have h0 : cur.length = 0 := by simpa [List.isEmpty_iff] using hc
      simp [h0, MAX_VECTORS_PER_CHUNK]
    · rw [if_neg hc]
      have h1 : cur.length ≠ 0 := by
        simpa [List.isEmpty_iff, List.length_eq_zero] using hc
      have h2 : cur.length ≤ MAX_VECTORS_PER_CHUNK := ho ▸ hle
      simp only [List.length_append, List.length_cons, List.length_nil]
      simp only [MAX_VECTORS_PER_CHUNK] at h2 ⊢
      omega
  | cons x xs ih =>
    intro c off chunks cur ho hle
    simp only [process_loop]
    by_cases hf : MAX_VECTORS_PER_CHUNK ≤ off
    · rw [if_pos hf]
      have hcur : cur.length = MAX_VECTORS_PER_CHUNK := by omega
      rw [ih (c + 1) 1 (chunks ++ [cur]) [Vector.mk_components x doc (c + 1) 0]
        (by simp) (by simp [MAX_VECTORS_PER_CHUNK])]
      simp only [List.length_append, List.length_cons, List.length_nil]
      simp only [MAX_VECTORS_PER_CHUNK] at hcur ⊢
      omega
    · rw [if_neg hf]
      rw [ih c (off + 1) chunks (cur ++ [Vector.mk_components x doc c off])
        (by simp [ho]) (by omega)]
      simp only [List.length_append, List.length_cons, List.length_nil,
        MAX_VECTORS_PER_CHUNK]
      omega

theorem process_loop_total (doc : Nat) (xs : List α) :
    ∀ (c off : Nat) (chunks : List (List (Vector α))) (cur : List (Vector α)),
      ((process_loop doc xs c off chunks cur).map List.length).sum
        = (chunks.map List.length).sum + cur.length + xs.length := by
  induction xs with
  | nil =>
    intro c off chunks cur
    simp only [process_loop]
    by_cases hc : cur.isEmpty
    · rw [if_pos hc]
      have h0 : cur.length = 0 := by simpa [List.isEmpty_iff] using hc
      simp [h0]
    · rw [if_neg hc]
      simp
  | cons x xs ih =>
    intro c off chunks cur
    simp only [process_loop]
    by_cases hf : MAX_VECTORS_PER_CHUNK ≤ off
    · rw [if_pos hf, ih]
      simp; omega
    · rw [if_neg hf, ih]
      simp; omega

theorem process_loop_numbering (doc : Nat) (xs : List α) :
    ∀ (c off : Nat) (chunks : List (List (Vector α))) (cur : List (Vector α)),
      chunks.length = c →
      (∀ j (h : j < chunks.length), ∀ v ∈ chunks.get ⟨j, h⟩,
        v.document = doc ∧ v.chunk = j) →
      (∀ v ∈ cur, v.document = doc ∧ v.chunk = c) →
      ∀ j (h : j < (process_loop doc xs c off chunks cur).length),
        ∀ v ∈ (process_loop doc xs c off chunks cur).get ⟨j, h⟩,
          v.document = doc ∧ v.chunk = j := by
  induction xs with
  | nil =>
    intro c off chunks cur hlen hchunks hcur
    simp only [process_loop]
    by_cases hc : cur.isEmpty
    · rw [if_pos hc]; exact hchunks
    · rw [if_neg hc]
      intro j h v hv
      simp only [List.get_eq_getElem] at hv ⊢
      by_cases hj : j < chunks.length
      · rw [List.getElem_append_left hj] at hv
        exact hchunks j hj v (by simpa using hv)
      · have hj2 : j = chunks.length := by
          simp only [List.length_append, List.length_cons, List.length_nil] at h
          omega
        subst hj2
        rw [List.getElem_append_right (le_refl _)] at hv
        simp only [Nat.sub_self, List.getElem_cons_zero] at hv
        have := hcur v hv
        exact ⟨this.1, by rw [this.2, hlen]⟩
  | cons x xs ih =>
    intro c off chunks cur hlen hchunks hcur
    simp only [process_loop]
    by_cases hf : MAX_VECTORS_PER_CHUNK ≤ off
    · rw [if_pos hf]
      refine ih (c + 1) 1 (chunks ++ [cur]) _ (by simp [hlen]) ?_ ?_
      · intro j h v hv
        simp only [List.get_eq_getElem] at hv ⊢
        by_cases hj : j < chunks.length
        · rw [List.getElem_append_left hj] at hv
          exact hchunks j hj v (by simpa using hv)
        · have hj2 : j = chunks.length := by
            simp only [List.length_append, List.length_cons, List.length_nil] at h
            omega
          subst hj2
          rw [List.getElem_append_right (le_refl _)] at hv
          simp only [Nat.sub_self, List.getElem_cons_zero] at hv
          have := hcur v hv
          exact ⟨this.1, by rw [this.2, hlen]⟩
      · intro v hv
        simp only [List.mem_singleton] at hv
        subst hv
        exact ⟨rfl, rfl⟩
    · rw [if_neg hf]
      refine ih c (off + 1) chunks (cur ++ [Vector.mk_components x doc c off])
        hlen hchunks ?_
      intro v hv
      rcases List.mem_append.mp hv with h1 | h1
      · exact hcur v h1
      · simp only [List.mem_singleton] at h1
        subst h1
        exact ⟨rfl, rfl⟩

theorem process_loop_offsets (doc : Nat) (xs : List α) :
    ∀ (c off : Nat) (chunks : List (List (Vector α))) (cur : List (Vector α)),
      off = cur.length →
      (∀ ch ∈ chunks, ∀ i (h : i < ch.length), (ch.get ⟨i, h⟩).offset = i) →
      (∀ i (h : i < cur.length), (cur.get ⟨i, h⟩).offset = i) →
      ∀ ch ∈ process_loop doc xs c off chunks cur,
        ∀ i (h : i < ch.length), (ch.get ⟨i, h⟩).offset = i := by
  induction xs with
  | nil =>
    intro c off chunks cur ho hchunks hcur
    simp only [process_loop]
    by_cases hc : cur.isEmpty
    · rw [if_pos hc]; exact hchunks
    · rw [if_neg hc]
      intro ch hch
      rcases List.mem_append.mp hch with h1 | h1
      · exact hchunks ch h1
      · simp only [List.mem_singleton] at h1
        subst h1
        exact hcur
  | cons x xs ih =>
    intro c off chunks cur ho hchunks hcur
    simp only [process_loop]
    by_cases hf : MAX_VECTORS_PER_CHUNK ≤ off
    · rw [if_pos hf]
      refine ih (c + 1) 1 (chunks ++ [cur]) _ (by simp) ?_ ?_
      · intro ch hch
        rcases List.mem_append.mp hch with h1 | h1
        · exact hchunks ch h1
        · simp only [List.mem_singleton] at h1
          subst h1
          exact hcur
      · intro i h
        simp only [List.length_cons, List.length_nil] at h
        interval_cases i
        rfl
    · rw [if_neg hf]
      refine ih c (off + 1) chunks (cur ++ [Vector.mk_components x doc c off])
        (by simp [ho]) hchunks ?_
      intro i h
      simp only [List.get_eq_getElem]
      by_cases hi : i < cur.length
      · rw [List.getElem_append_left hi]
        exact hcur i hi
      · have hi2 : i = cur.length := by
          simp only [List.length_append, List.length_cons, List.length_nil] at h
          omega
        subst hi2
        rw [List.getElem_append_right (le_refl _)]
        simp only [Nat.sub_self, List.getElem_cons_zero]
        simpa [Vector.offset, Vector.mk_components, PointerObj.mk_pointer] using ho

theorem process_loop_full (doc : Nat) (xs : List α) :
    ∀ (c off : Nat) (chunks : List (List (Vector α))) (cur : List (Vector α)),
      off = cur.length → off ≤ MAX_VECTORS_PER_CHUNK →
      (∀ ch ∈ chunks, ch.length = MAX_VECTORS_PER_CHUNK) →
      ∀ ch ∈ (process_loop doc xs c off chunks cur).dropLast,
        ch.length = MAX_VECTORS_PER_CHUNK := by
  induction xs with
  | nil =>
    intro c off chunks cur ho hle hchunks
    simp only [process_loop]
    by_cases hc : cur.isEmpty
    · rw [if_pos hc]
      intro ch hch
      exact hchunks ch (List.dropLast_subset _ hch)
    · rw [if_neg hc]
      rw [List.dropLast_concat]
      exact hchunks
  | cons x xs ih =>
    intro c off chunks cur ho hle hchunks
    simp only [process_loop]
    by_cases hf : MAX_VECTORS_PER_CHUNK ≤ off
    · rw [if_pos hf]
      refine ih (c + 1) 1 (chunks ++ [cur]) _ (by simp)
        (by simp [MAX_VECTORS_PER_CHUNK]) ?_
      intro ch hch
      rcases List.mem_append.mp hch with h1 | h1
      · exact hchunks ch h1
      · simp only [List.mem_singleton] at h1
        subst h1
        omega
    · rw [if_neg hf]
      exact ih c (off + 1) chunks (cur ++ [Vector.mk_components x doc c off])
        (by simp [ho]) (by omega) hchunks

/-- C4: processing `n` passages (with `n` within the chunk-field capacity)
produces exactly `ceil(n / MAX_VECTORS_PER_CHUNK)` chunks; every vector
carries the one document id; the vectors of the j-th chunk carry chunk
number j; within each chunk the offsets are exactly `0, 1, ..., size - 1`;
every chunk except possibly the last holds exactly `MAX_VECTORS_PER_CHUNK`
vectors; and no passage is lost. -/
theorem process_file_chunking (doc : Nat) (items : List α)
    (_hn : items.length ≤ MAX_VECTORS_PER_CHUNK * 2 ^ 20) :
    (process_file doc items).length
        = (items.length + MAX_VECTORS_PER_CHUNK - 1) / MAX_VECTORS_PER_CHUNK ∧
      (∀ j (h : j < (process_file doc items).length),
        ∀ v ∈ (process_file doc items).get ⟨j, h⟩,
          v.document = doc ∧ v.chunk = j) ∧
      (∀ ch ∈ process_file doc items, ∀ i (h : i < ch.length),
        (ch.get ⟨i, h⟩).offset = i) ∧
      (∀ ch ∈ (process_file doc items).dropLast,
        ch.length = MAX_VECTORS_PER_CHUNK) ∧
      ((process_file doc items).map List.length).sum = items.length := by
  refine ⟨?_, ?_, ?_, ?_, ?_⟩
  · have := process_loop_length doc items 0 0 [] [] rfl
      (by simp [MAX_VECTORS_PER_CHUNK])
    simpa [process_file] using this
  · exact process_loop_numbering doc items 0 0 [] [] rfl
      (by intro j h; simp at h) (by intro v hv; simp at hv)
  · exact process_loop_offsets doc items 0 0 [] [] rfl
      (by intro ch hch; simp at hch) (by intro i h; simp at h)
  · exact process_loop_full doc items 0 0 [] [] rfl
      (by simp [MAX_VECTORS_PER_CHUNK]) (by intro ch hch; simp at hch)
  · have := process_loop_total doc items 0 0 [] []
    simpa [process_file] using this

/-- Concrete instantiation of the chunking theorem: three passages fit in a
single chunk of three vectors. -/
theorem process_file_chunking_witness :
    ([10, 20, 30] : List Nat).length ≤ MAX_VECTORS_PER_CHUNK * 2 ^ 20 ∧
      (process_file 7 ([10, 20, 30] : List Nat)).length = 1 ∧
      ((process_file 7 ([10, 20, 30] : List Nat)).map List.length).sum = 3 := by
  have h : ([10, 20, 30] : List Nat).length ≤ MAX_VECTORS_PER_CHUNK * 2 ^ 20 := by
    simp [MAX_VECTORS_PER_CHUNK]
  have main := process_file_chunking 7 ([10, 20, 30] : List Nat) h
  refine ⟨h, ?_, main.2.2.2.2⟩
  rw [main.1]
  simp [MAX_VECTORS_PER_CHUNK]

/-! ### Threshold search, from src/index/index.py -/

/-- Embedding of the threshold branch of `HNSWIndex.search`. The FAISS call
`range_search` is external; its output is the parameter `rs`, the list of
(distance, id) pairs it reports (FAISS guarantees each distance is strictly
below the threshold and promises no particular order). The Python code slices
the arrays, and when more than `k` results were found it rebuilds
`result_distances` and `result_indices` as plain Python lists before calling
`.tolist()` on them, which raises `AttributeError`; that unreachable return is
modelled by the error branch. Distances are modelled as `Int` since the code
only compares and sorts them. -/
def search_with_threshold (k : Nat) (rs : List (Int × Nat)) :
    Except String (List Int × List Nat) :=
  if k < rs.length then
    Except.error "AttributeError raised by tolist on a plain list"
  else
    Except.ok (rs.map Prod.fst, rs.map Prod.snd)

/-- C3 failing input: with `k = 2` and three in-threshold results the
threshold branch of `HNSWIndex.search` raises `AttributeError` instead of
returning the top-2 ascending results; and when at most `k` results are
within the threshold the pairs are returned in the order `range_search`
produced them, which need not be ascending. -/
theorem search_with_threshold_bug :
    search_with_threshold 2 [(0, 100), (1, 101), (2, 102)]
        = Except.error "AttributeError raised by tolist on a plain list" ∧
      search_with_threshold 2 [(3, 7), (1, 8)] = Except.ok ([3, 1], [7, 8]) := by
  constructor <;> rfl

/-! ### Query path, from src/query.py -/

/-- A chunk as stored: the rows of vector values (float values modelled as
`Int`, they are only carried around). -/
abbrev Chunk := List (List Int)

/-- Chunk id of a vector id, as `_group_vectors_by_chunk` computes it:
decode, then `generate_chunk_id`. -/
def chunk_id_of_vid (vid : Nat) : Nat :=
  Pointer.generate_chunk_id (Pointer.decode vid).1 (Pointer.decode vid).2.1

/-- One step of the Python dict-based grouping: append the vector id to its
chunk's list, keeping dict insertion order. -/
def add_to_groups : List (Nat × List Nat) → Nat → Nat → List (Nat × List Nat)
  | [], cid, vid => [(cid, [vid])]
  | (c, vs) :: rest, cid, vid =>
    if c = cid then (c, vs ++ [vid]) :: rest
    else (c, vs) :: add_to_groups rest cid vid

/-- Embedding of `_group_vectors_by_chunk`: a Python dict in insertion order,
mapping chunk id to the vector ids that fall in that chunk. -/
def group_vectors_by_chunk (vector_ids : List Nat) : List (Nat × List Nat) :=
  vector_ids.foldl (fun groups vid => add_to_groups groups (chunk_id_of_vid vid) vid) []

/-- Chunk resolution in `query_system`: the cache is consulted first, misses
are fetched from the store; a chunk that fails in both is absent from
`chunks_map` (download errors are dropped by the code). `cache` and
`download` are the external outcomes of the batch cache get and of
`download_multiple_vector_chunks`. -/
def resolve_chunk (cache download : Nat → Option Chunk) (cid : Nat) : Option Chunk :=
  match cache cid with
  | some ch => some ch
  | none => download cid

/-- Embedding of the per-result dictionary built by `query_system`. -/
structure ResultEntry where
  vector_values : List Int
  distance : Int
  document_id : Nat
  chunk_id : Nat
  offset : Nat
  vector_index : Nat
deriving DecidableEq, Repr

/-- Embedding of the tuples pushed onto `result_heap`:
`(distance, original_position, result)`. -/
structure HeapEntry where
  distance : Int
  position : Nat
  result : ResultEntry
deriving DecidableEq, Repr

/-- Comparison used by the final `sorted(result_heap, key=lambda x: x[1])`. -/
def posLE (a b : HeapEntry) : Prop := a.position ≤ b.position

instance : DecidableRel posLE := fun a b => Nat.decLe a.position b.position

instance : IsTotal HeapEntry posLE := ⟨fun a b => Nat.le_total a.position b.position⟩

instance : IsTrans HeapEntry posLE := ⟨fun _ _ _ h1 h2 => Nat.le_trans h1 h2⟩

/-- Heap entry built for one retained vector id: decode, take the row at the
offset, look the distance up at the id's first position in `vector_ids`. -/
def mk_entry (distances : List Int) (vector_ids : List Nat) (chunk : Chunk)
    (vid : Nat) : HeapEntry :=
  ⟨distances.getD (vector_ids.indexOf vid) 0, vector_ids.indexOf vid,
    ⟨chunk.getD (Pointer.decode vid).2.2 [],
      distances.getD (vector_ids.indexOf vid) 0, (Pointer.decode vid).1,
      chunk_id_of_vid vid, (Pointer.decode vid).2.2, vid⟩⟩

/-- Entries pushed for one group: nothing if the chunk did not resolve,
otherwise one entry per member whose offset is inside the chunk. -/
def entries_for_group (distances : List Int) (vector_ids : List Nat)
    (cache download : Nat → Option Chunk) (g : Nat × List Nat) : List HeapEntry :=
  match resolve_chunk cache download g.1 with
  | none => []
  | some chunk =>
    g.2.filterMap (fun vid =>
      if (Pointer.decode vid).2.2 < chunk.length then
        some (mk_entry distances vector_ids chunk vid)
      else none)

/-- Embedding of the dictionary returned by `query_system` (the echoed query
text and embedding are omitted; they carry no verified content). -/
structure QueryResult where
  search_results : List ResultEntry
  total_found : Nat
  success : Bool
  error : Option String
deriving DecidableEq, Repr

/-- Embedding of `query_system` after the index search: `distances` and
`vector_ids` are what `index.search` returned, `cache` and `download` the
external chunk sources. The heap plus the final
`sorted(result_heap, key=lambda x: x[1])` keep the entries ordered by
original position; with distinct ids the keys are distinct, so a stable sort
by position models it. -/
def query_system (distances : List Int) (vector_ids : List Nat)
    (cache download : Nat → Option Chunk) : QueryResult :=
  if vector_ids.isEmpty then ⟨[], 0, true, none⟩
  else
    let entries := (group_vectors_by_chunk vector_ids).flatMap
      (entries_for_group distances vector_ids cache download)
    let ordered := (List.insertionSort posLE entries).map HeapEntry.result
    ⟨ordered, ordered.length, true, none⟩

/-- Whether `query_system` keeps a vector id: its chunk resolved and the
decoded offset is inside the chunk. -/
def keeps (cache download : Nat → Option Chunk) (vid : Nat) : Bool :=
  match resolve_chunk cache download (chunk_id_of_vid vid) with
  | none => false
  | some chunk => decide ((Pointer.decode vid).2.2 < chunk.length)

/-- Per-id entry builder: what the group traversal contributes for one id. -/
def entry_of (distances : List Int) (vector_ids : List Nat)
    (cache download : Nat → Option Chunk) (vid : Nat) : Option HeapEntry :=
  match resolve_chunk cache download (chunk_id_of_vid vid) with
  | none => none
  | some chunk =>
    if (Pointer.decode vid).2.2 < chunk.length then
      some (mk_entry distances vector_ids chunk vid)
    else none

/-- The result record for the id at position `pos` of the index output. -/
def result_at (distances : List Int) (cache download : Nat → Option Chunk)
    (pos vid : Nat) : ResultEntry :=
  ⟨((resolve_chunk cache download (chunk_id_of_vid vid)).getD []).getD
      (Pointer.decode vid).2.2 [],
    distances.getD pos 0, (Pointer.decode vid).1, chunk_id_of_vid vid,
    (Pointer.decode vid).2.2, vid⟩

/-- The heap entry for the id at position `pos` of the index output. -/
def entry_at (distances : List Int) (cache download : Nat → Option Chunk)
    (pos vid : Nat) : HeapEntry :=
  ⟨distances.getD pos 0, pos, result_at distances cache download pos vid⟩

/-! ### Structural lemmas about the grouping and the result assembly -/

theorem add_to_groups_flatten_perm (g : List (Nat × List Nat)) (cid vid : Nat) :
    ((add_to_groups g cid vid).map Prod.snd).flatten
      ~ (g.map Prod.snd).flatten ++ [vid] := by
  induction g with
  | nil => simp [add_to_groups]
  | cons p rest ih =>
    obtain ⟨c, vs⟩ := p
    simp only [add_to_groups]
    by_cases hc : c = cid
    · rw [if_pos hc]
      simp only [List.map_cons, List.flatten_cons, List.append_assoc]
      exact List.perm_append_comm.append_left vs
    · rw [if_neg hc]
      simp only [List.map_cons, List.flatten_cons]
      calc vs ++ ((add_to_groups rest cid vid).map Prod.snd).flatten
          ~ vs ++ ((rest.map Prod.snd).flatten ++ [vid]) := (ih.append_left vs)
        _ = vs ++ (rest.map Prod.snd).flatten ++ [vid] := by rw [List.append_assoc]

theorem foldl_groups_flatten_perm (rest : List Nat) :
    ∀ g : List (Nat × List Nat),
      (((rest.foldl (fun groups vid =>
            add_to_groups groups (chunk_id_of_vid vid) vid) g).map Prod.snd).flatten)
        ~ (g.map Prod.snd).flatten ++ rest := by
  induction rest with
  | nil => intro g; simp
  | cons vid rest ih =>
    intro g
    simp only [List.foldl_cons]
    calc (((rest.foldl _ (add_to_groups g (chunk_id_of_vid vid) vid)).map Prod.snd).flatten)
        ~ ((add_to_groups g (chunk_id_of_vid vid) vid).map Prod.snd).flatten ++ rest :=
          ih _
      _ ~ ((g.map Prod.snd).flatten ++ [vid]) ++ rest :=
          (add_to_groups_flatten_perm g _ vid).append_right rest
      _ = (g.map Prod.snd).flatten ++ vid :: rest := by simp

theorem groups_flatten_perm (vector_ids : List Nat) :
    (((group_vectors_by_chunk vector_ids).map Prod.snd).flatten) ~ vector_ids := by
  have := foldl_groups_flatten_perm vector_ids []
  simpa [group_vectors_by_chunk] using this

theorem add_to_groups_keys (g : List (Nat × List Nat)) (vid : Nat)
    (hg : ∀ p ∈ g, ∀ v ∈ p.2, chunk_id_of_vid v = p.1) :
    ∀ p ∈ add_to_groups g (chunk_id_of_vid vid) vid, ∀ v ∈ p.2,
      chunk_id_of_vid v = p.1 := by
  induction g with
  | nil =>
    intro p hp v hv
    simp only [add_to_groups, List.mem_singleton] at hp
    subst hp
    simp only [List.mem_singleton] at hv
    subst hv
    rfl
  | cons q rest ih =>
    obtain ⟨c, vs⟩ := q
    intro p hp v hv
    simp only [add_to_groups] at hp
    by_cases hc : c = chunk_id_of_vid vid
    · rw [if_pos hc] at hp
      rcases List.mem_cons.mp hp with h1 | h1
      · subst h1
        rcases List.mem_append.mp hv with h2 | h2
        · exact hg (c, vs) (List.mem_cons_self _ _) v h2
        · simp only [List.mem_singleton] at h2
          subst h2
          exact hc.symm
      · exact hg p (List.mem_cons_of_mem _ h1) v hv
    · rw [if_neg hc] at hp
      rcases List.mem_cons.mp hp with h1 | h1
      · subst h1
        exact hg (c, vs) (List.mem_cons_self _ _) v hv
      · exact ih (fun q hq => hg q (List.mem_cons_of_mem _ hq)) p h1 v hv

theorem groups_keys (vector_ids : List Nat) :
    ∀ p ∈ group_vectors_by_chunk vector_ids, ∀ v ∈ p.2,
      chunk_id_of_vid v = p.1 := by
  unfold group_vectors_by_chunk
  generalize hg : ([] : List (Nat × List Nat)) = g
  have hbase : ∀ p ∈ g, ∀ v ∈ p.2, chunk_id_of_vid v = p.1 := by
    subst hg; intro p hp; simp at hp
  clear hg
  induction vector_ids generalizing g with
  | nil => simpa using hbase
  | cons vid rest ih =>
    simp only [List.foldl_cons]
    exact ih _ (add_to_groups_keys g vid hbase)

theorem entries_for_group_eq (distances : List Int) (vector_ids : List Nat)
    (cache download : Nat → Option Chunk) (g : Nat × List Nat)
    (hkeys : ∀ v ∈ g.2, chunk_id_of_vid v = g.1) :
    entries_for_group distances vector_ids cache download g
      = g.2.filterMap (entry_of distances vector_ids cache download) := by
  unfold entries_for_group
  cases hres : resolve_chunk cache download g.1 with
  | none =>
    symm
    rw [List.filterMap_eq_nil_iff]
    intro v hv
    unfold entry_of
    rw [hkeys v hv, hres]
  | some chunk =>
    symm
    apply List.filterMap_congr
    intro v hv
    unfold entry_of
    rw [hkeys v hv, hres]

theorem flatten_filterMap (L : List (List Nat)) (e : Nat → Option HeapEntry) :
    L.flatten.filterMap e = (L.map (fun l => l.filterMap e)).flatten := by
  induction L with
  | nil => rfl
  | cons l rest ih =>
    simp only [List.flatten_cons, List.filterMap_append, List.map_cons, ih]

theorem nodup_indexOf (l : List Nat) (hnd : l.Nodup) :
    ∀ i (h : i < l.length), l.indexOf (l.get ⟨i, h⟩) = i := by
  induction l with
  | nil => intro i h; simp at h
  | cons x xs ih =>
    intro i h
    match i with
    | 0 => simp [List.indexOf_cons]
    | i + 1 =>
      have hi : i < xs.length := by simpa using Nat.lt_of_succ_lt_succ h
      have hmem : xs[i] ∈ xs := List.getElem_mem hi
      have hne : x ≠ xs[i] := by
        intro heq
        exact (List.nodup_cons.mp hnd).1 (heq ▸ hmem)
      simp only [List.get_eq_getElem, List.getElem_cons_succ, List.indexOf_cons]
      have hb : (x == xs[i]) = false := by
        simpa [beq_eq_false_iff_ne] using hne
      rw [hb]
      simp only [cond_false]
      have hrec := ih (List.nodup_cons.mp hnd).2 i hi
      simp only [List.get_eq_getElem] at hrec
      omega

theorem filterMap_entry_of_eq (distances : List Int) (vector_ids : List Nat)
    (cache download : Nat → Option Chunk) :
    ∀ (l : List Nat) (n : Nat),
      (∀ i (h : i < l.length), vector_ids.indexOf (l.get ⟨i, h⟩) = n + i) →
      l.filterMap (entry_of distances vector_ids cache download)
        = ((l.enumFrom n).filter (fun p => keeps cache download p.2)).map
            (fun p => entry_at distances cache download p.1 p.2) := by
  intro l
  induction l with
  | nil => intro n _; rfl
  | cons x xs ih =>
    intro n hidx
    have hx : vector_ids.indexOf x = n := by
      have := hidx 0 (by simp)
      simpa using this
    have htail : ∀ i (h : i < xs.length), vector_ids.indexOf (xs.get ⟨i, h⟩) = (n + 1) + i := by
      intro i h
      have := hidx (i + 1) (by simpa using Nat.succ_lt_succ h)
      simp only [List.get_eq_getElem, List.getElem_cons_succ] at this ⊢
      omega
    rw [List.filterMap_cons, List.enumFrom_cons, List.filter_cons]
    cases hres : resolve_chunk cache download (chunk_id_of_vid x) with
    | none =>
      have hent : entry_of distances vector_ids cache download x = none := by
        unfold entry_of; rw [hres]
      have hkeep : keeps cache download x = false := by
        unfold keeps; rw [hres]
      rw [hent, hkeep]
      simpa using ih (n + 1) htail
    | some chunk =>
      by_cases hoff : (Pointer.decode x).2.2 < chunk.length
      · have hent : entry_of distances vector_ids cache download x
            = some (mk_entry distances vector_ids chunk x) := by
          simp [entry_of, hres, hoff]
        have hkeep : keeps cache download x = true := by
          simp [keeps, hres, hoff]
        rw [hent, hkeep]
        simp only [if_true]
        rw [List.map_cons]
        congr 1
        · simp [mk_entry, entry_at, result_at, hx, hres]
        · exact ih (n + 1) htail
      · have hent : entry_of distances vector_ids cache download x = none := by
          simp [entry_of, hres, hoff]
        have hkeep : keeps cache download x = false := by
          simp [keeps, hres, hoff]
        rw [hent, hkeep]
        simpa using ih (n + 1) htail

theorem enumFrom_pairwise_fst_lt {β : Type} (l : List β) :
    ∀ n, (l.enumFrom n).Pairwise (fun a b => a.1 < b.1) := by
  induction l with
  | nil => intro n; simp
  | cons x xs ih =>
    intro n
    rw [List.enumFrom_cons, List.pairwise_cons]
    refine ⟨?_, ih (n + 1)⟩
    intro p hp
    have := List.le_fst_of_mem_enumFrom hp
    omega

theorem sorted_perm_eq :
    ∀ {l₂ l₁ : List HeapEntry}, l₁ ~ l₂ → l₁.Pairwise posLE →
      l₂.Pairwise (fun a b => a.position < b.position) → l₁ = l₂ := by
  intro l₂
  induction l₂ with
  | nil =>
    intro l₁ hp _ _
    exact hp.eq_nil
  | cons b t ih =>
    intro l₁ hp hs₁ hs₂
    cases l₁ with
    | nil => exact absurd hp.symm.eq_nil (by simp)
    | cons a t₁ =>
      have hab : a = b := by
        by_contra hne
        have ha : a ∈ b :: t := hp.subset (List.mem_cons_self _ _)
        have ha2 : a ∈ t := by
          rcases List.mem_cons.mp ha with h | h
          · exact absurd h hne
          · exact h
        have hblt : b.position < a.position :=
          (List.pairwise_cons.mp hs₂).1 a ha2
        have hb : b ∈ a :: t₁ := hp.symm.subset (List.mem_cons_self _ _)
        have hb2 : b ∈ t₁ := by
          rcases List.mem_cons.mp hb with h | h
          · exact absurd h.symm hne
          · exact h
        have hale : posLE a b := (List.pairwise_cons.mp hs₁).1 b hb2
        exact absurd hblt (by unfold posLE at hale; omega)
      subst hab
      have ht : t₁ ~ t := hp.cons_inv
      rw [ih ht (List.pairwise_cons.mp hs₁).2 (List.pairwise_cons.mp hs₂).2]

theorem enumFrom_filter_map_snd {β : Type} (p : β → Bool) (l : List β) :
    ∀ n, ((l.enumFrom n).filter (fun q => p q.2)).map Prod.snd = l.filter p := by
  induction l with
  | nil => intro n; rfl
  | cons x xs ih =>
    intro n
    rw [List.enumFrom_cons, List.filter_cons, List.filter_cons]
    by_cases hpx : p x
    · simp only [hpx, if_true, List.map_cons, ih (n + 1)]
    · simp only [hpx, Bool.false_eq_true, if_false, ih (n + 1)]

/-- Workhorse characterisation: with distinct ids, the search results of
`query_system` are exactly the index results, in index order, restricted to
the ids whose chunk resolved and whose offset is inside the chunk. -/
theorem query_system_characterization (distances : List Int) (vector_ids : List Nat)
    (cache download : Nat → Option Chunk) (hnd : vector_ids.Nodup) :
    (query_system distances vector_ids cache download).search_results
        = ((vector_ids.enum.filter (fun p => keeps cache download p.2)).map
            (fun p => result_at distances cache download p.1 p.2))
      ∧ (query_system distances vector_ids cache download).success = true
      ∧ (query_system distances vector_ids cache download).error = none := by
  by_cases hemp : vector_ids.isEmpty
  · have : vector_ids = [] := List.isEmpty_iff.mp hemp
    subst this
    exact ⟨rfl, rfl, rfl⟩
  · unfold query_system
    rw [if_neg hemp]
    refine ⟨?_, rfl, rfl⟩
    simp only
    have hgroups := groups_keys vector_ids
    have hstep1 : (group_vectors_by_chunk vector_ids).flatMap
          (entries_for_group distances vector_ids cache download)
        = (group_vectors_by_chunk vector_ids).flatMap
            (fun g => g.2.filterMap (entry_of distances vector_ids cache download)) := by
      unfold List.flatMap
      congr 1
      apply List.map_congr_left
      intro g hg
      exact entries_for_group_eq distances vector_ids cache download g (hgroups g hg)
    have hstep2 : (group_vectors_by_chunk vector_ids).flatMap
          (fun g => g.2.filterMap (entry_of distances vector_ids cache download))
        = (((group_vectors_by_chunk vector_ids).map Prod.snd).flatten).filterMap
            (entry_of distances vector_ids cache download) := by
      rw [flatten_filterMap]
      unfold List.flatMap
      rw [List.map_map]
      rfl
    have hperm : ((group_vectors_by_chunk vector_ids).flatMap
          (entries_for_group distances vector_ids cache download))
        ~ vector_ids.filterMap (entry_of distances vector_ids cache download) := by
      rw [hstep1, hstep2]
      exact (groups_flatten_perm vector_ids).filterMap _
    have hexp : vector_ids.filterMap (entry_of distances vector_ids cache download)
        = ((vector_ids.enumFrom 0).filter (fun p => keeps cache download p.2)).map
            (fun p => entry_at distances cache download p.1 p.2) :=
      filterMap_entry_of_eq distances vector_ids cache download vector_ids 0
        (fun i h => by simpa using nodup_indexOf vector_ids hnd i h)
    have hsorted_exp : (((vector_ids.enumFrom 0).filter
            (fun p => keeps cache download p.2)).map
            (fun p => entry_at distances cache download p.1 p.2)).Pairwise
          (fun a b => a.position < b.position) := by
      rw [List.pairwise_map]
      exact ((enumFrom_pairwise_fst_lt vector_ids 0).filter _)
    have hsort_eq : List.insertionSort posLE
          ((group_vectors_by_chunk vector_ids).flatMap
            (entries_for_group distances vector_ids cache download))
        = ((vector_ids.enumFrom 0).filter (fun p => keeps cache download p.2)).map
            (fun p => entry_at distances cache download p.1 p.2) := by
      apply sorted_perm_eq
      · calc List.insertionSort posLE _
            ~ (group_vectors_by_chunk vector_ids).flatMap
                (entries_for_group distances vector_ids cache download) :=
              List.perm_insertionSort posLE _
          _ ~ vector_ids.filterMap (entry_of distances vector_ids cache download) :=
              hperm
          _ = _ := hexp
      · exact List.sorted_insertionSort posLE _
      · exact hsorted_exp
    rw [hsort_eq, List.map_map]
    rfl

/-- Helper: with distinct ids the vector ids of the search results are the
index's ids filtered to the kept ones, in index order. -/
theorem query_vector_index_filter (distances : List Int) (vector_ids : List Nat)
    (cache download : Nat → Option Chunk) (hnd : vector_ids.Nodup) :
    (query_system distances vector_ids cache download).search_results.map
        ResultEntry.vector_index
      = vector_ids.filter (keeps cache download) := by
  rw [(query_system_characterization distances vector_ids cache download hnd).1,
    List.map_map]
  have h2 : (ResultEntry.vector_index ∘
        fun p : Nat × Nat => result_at distances cache download p.1 p.2)
      = Prod.snd := rfl
  rw [h2]
  exact enumFrom_filter_map_snd (keeps cache download) vector_ids 0

/-- C5: with distinct ids, the search results of a successful query are
exactly the kept index results in the order the index returned their ids;
each result carries the distance the index reported at its id's position; and
if the index's distances are ascending, so are the emitted distances. -/
theorem query_results_follow_index_order (distances : List Int)
    (vector_ids : List Nat) (cache download : Nat → Option Chunk)
    (hnd : vector_ids.Nodup) (hlen : distances.length = vector_ids.length) :
    (query_system distances vector_ids cache download).search_results
        = ((vector_ids.enum.filter (fun p => keeps cache download p.2)).map
            (fun p => result_at distances cache download p.1 p.2)) ∧
      (∀ r ∈ (query_system distances vector_ids cache download).search_results,
        r.distance = distances.getD (vector_ids.indexOf r.vector_index) 0) ∧
      (List.Sorted (fun a b : Int => a ≤ b) distances →
        List.Sorted (fun a b : Int => a ≤ b)
          ((query_system distances vector_ids cache download).search_results.map
            ResultEntry.distance)) := by
  have h := query_system_characterization distances vector_ids cache download hnd
  refine ⟨h.1, ?_, ?_⟩
  · intro r hr
    rw [h.1] at hr
    obtain ⟨p, hp, hre⟩ := List.mem_map.mp hr
    obtain ⟨i, vid⟩ := p
    have hpmem : (i, vid) ∈ vector_ids.enum := (List.mem_filter.mp hp).1
    have hi : i < vector_ids.length := by
      have := List.fst_lt_add_of_mem_enumFrom hpmem
      simpa using this
    have hvid : vid = vector_ids[i] := by
      have := List.snd_eq_of_mem_enumFrom hpmem
      simpa using this
    have hidx : vector_ids.indexOf vid = i := by
      rw [hvid]
      have := nodup_indexOf vector_ids hnd i hi
      simpa using this
    rw [← hre]
    show distances.getD i 0
        = distances.getD (vector_ids.indexOf
            (result_at distances cache download i vid).vector_index) 0
    have hvi : (result_at distances cache download i vid).vector_index = vid := rfl
    rw [hvi, hidx]
  · intro hsd
    rw [h.1, List.map_map]
    have h2 : (ResultEntry.distance ∘
          fun p : Nat × Nat => result_at distances cache download p.1 p.2)
        = fun p : Nat × Nat => distances.getD p.1 0 := rfl
    rw [h2]
    have hpw : (vector_ids.enum.filter
          (fun p => keeps cache download p.2)).Pairwise (fun a b => a.1 < b.1) := by
      apply List.Pairwise.filter
      exact enumFrom_pairwise_fst_lt vector_ids 0
    have hpairs : ((vector_ids.enum.filter (fun p => keeps cache download p.2)).map
        (fun p : Nat × Nat => distances.getD p.1 0)).Pairwise
          (fun a b : Int => a ≤ b) := by
      rw [List.pairwise_map]
      refine hpw.imp_of_mem ?_
      intro p q hp hq hlt
      have hip : p.1 < distances.length := by
        have := List.fst_lt_add_of_mem_enumFrom (List.mem_filter.mp hp).1
        simp only [Nat.zero_add] at this
        omega
      have hiq : q.1 < distances.length := by
        have := List.fst_lt_add_of_mem_enumFrom (List.mem_filter.mp hq).1
        simp only [Nat.zero_add] at this
        omega
      show distances.getD p.1 0 ≤ distances.getD q.1 0
      rw [List.getD_eq_getElem _ _ hip, List.getD_eq_getElem _ _ hiq]
      have hps : List.Pairwise (fun a b : Int => a ≤ b) distances := hsd
      exact List.pairwise_iff_getElem.mp hps p.1 q.1 hip hiq hlt
    exact hpairs

/-- Concrete instantiation of the ordering theorem: two ids in one chunk. -/
theorem query_results_follow_index_order_witness :
    ([0, 1] : List Nat).Nodup ∧
      ([1, 2] : List Int).length = ([0, 1] : List Nat).length ∧
      (query_system [1, 2] [0, 1] (fun _ => some [[8], [9]])
          (fun _ => none)).search_results.map ResultEntry.distance = [1, 2] := by
  have h := query_results_follow_index_order [1, 2] [0, 1]
    (fun _ => some [[8], [9]]) (fun _ => none) (by decide) (by decide)
  refine ⟨by decide, by decide, ?_⟩
  rw [h.1]
  decide

/-- C6 counterexample: one of two chunks fails to resolve (cache and store
both miss it). The response omits the failed chunk's id and returns the
healthy chunk's result, but it contains no warning of any kind: the full
response is just the surviving results with `success = true` and no error
field. -/
theorem query_failed_chunk_no_warning_counterexample :
    query_system [10, 20] [0, 65536] (fun _ => none)
        (fun cid => if cid = 0 then some [[5]] else none)
      = ⟨[⟨[5], 10, 0, 0, 0, 0⟩], 1, true, none⟩ ∧
      (query_system [10, 20] [0, 65536] (fun _ => none)
          (fun cid => if cid = 0 then some [[5]] else none)).search_results.map
          ResultEntry.vector_index = [0] ∧
      (query_system [10, 20] [0, 65536] (fun _ => none)
          (fun cid => if cid = 0 then some [[5]] else none)).error = none := by
  refine ⟨by decide, by decide, by decide⟩

/-- C6 amended: when some chunks fail to resolve from both the cache and the
store, `query_system` omits exactly the ids of unkept vectors (those whose
chunk failed, or whose offset is out of range), returns all results from the
resolved chunks, and reports `success = true` with no warning and no error
recorded anywhere in the response. -/
theorem query_failed_chunks_omitted_no_warning (distances : List Int)
    (vector_ids : List Nat) (cache download : Nat → Option Chunk)
    (hnd : vector_ids.Nodup) :
    ((query_system distances vector_ids cache download).search_results.map
        ResultEntry.vector_index)
        = vector_ids.filter (keeps cache download) ∧
      (∀ vid ∈ vector_ids,
        resolve_chunk cache download (chunk_id_of_vid vid) = none →
          vid ∉ (query_system distances vector_ids cache download).search_results.map
            ResultEntry.vector_index) ∧
      (query_system distances vector_ids cache download).success = true ∧
      (query_system distances vector_ids cache download).error = none := by
  have h := query_system_characterization distances vector_ids cache download hnd
  have hf := query_vector_index_filter distances vector_ids cache download hnd
  refine ⟨hf, ?_, h.2.1, h.2.2⟩
  intro vid _ hres hmem
  rw [hf] at hmem
  have hk := (List.mem_filter.mp hmem).2
  unfold keeps at hk
  rw [hres] at hk
  exact absurd hk (by simp)

/-- Concrete instantiation of the failed-chunk theorem. -/
theorem query_failed_chunks_omitted_no_warning_witness :
    ([0, 65536] : List Nat).Nodup ∧
      resolve_chunk (fun _ => none)
          (fun cid => if cid = 0 then some [[5]] else none)
          (chunk_id_of_vid 65536) = none ∧
      65536 ∉ (query_system [10, 20] [0, 65536] (fun _ => none)
          (fun cid => if cid = 0 then some [[5]] else none)).search_results.map
          ResultEntry.vector_index := by
  have h := query_failed_chunks_omitted_no_warning [10, 20] [0, 65536]
    (fun _ => none) (fun cid => if cid = 0 then some [[5]] else none) (by decide)
  refine ⟨by decide, by decide, ?_⟩
  exact h.2.1 65536 (by decide) (by decide)

/-- C10: an id whose decoded offset is at or past the end of its resolved
chunk is silently dropped: it does not appear in the results, while the
response still reports success with no error and no warning. -/
theorem query_out_of_range_offset_omitted (distances : List Int)
    (vector_ids : List Nat) (cache download : Nat → Option Chunk)
    (vid : Nat) (chunk : Chunk) (hnd : vector_ids.Nodup)
    (hres : resolve_chunk cache download (chunk_id_of_vid vid) = some chunk)
    (hoff : chunk.length ≤ (Pointer.decode vid).2.2) :
    vid ∉ (query_system distances vector_ids cache download).search_results.map
        ResultEntry.vector_index ∧
      (query_system distances vector_ids cache download).success = true ∧
      (query_system distances vector_ids cache download).error = none := by
  have h := query_system_characterization distances vector_ids cache download hnd
  have hf := query_vector_index_filter distances vector_ids cache download hnd
  refine ⟨?_, h.2.1, h.2.2⟩
  intro hmem
  rw [hf] at hmem
  have hk := (List.mem_filter.mp hmem).2
  unfold keeps at hk
  rw [hres] at hk
  simp only [decide_eq_true_eq] at hk
  omega

/-- Concrete instantiation of the out-of-range-offset theorem: id 5 decodes
to offset 5 but its chunk has a single row. -/
theorem query_out_of_range_offset_omitted_witness :
    ([5] : List Nat).Nodup ∧
      resolve_chunk (fun _ => some [[1]]) (fun _ => none)
          (chunk_id_of_vid 5) = some [[1]] ∧
      ([[1]] : Chunk).length ≤ (Pointer.decode 5).2.2 ∧
      (5 ∉ (query_system [10] [5] (fun _ => some [[1]])
            (fun _ => none)).search_results.map ResultEntry.vector_index ∧
        (query_system [10] [5] (fun _ => some [[1]])
            (fun _ => none)).success = true ∧
        (query_system [10] [5] (fun _ => some [[1]])
            (fun _ => none)).error = none) :=
  ⟨by decide, by decide, by decide,
    query_out_of_range_offset_omitted [10] [5] (fun _ => some [[1]])
      (fun _ => none) 5 [[1]] (by decide) (by decide) (by decide)⟩

end MemVec
